import Mathlib

/-!
Verification development for the `xlsx-diff` tool (`xlsx_diff.py`).

The program is embedded shallowly: text is `List Char`, each Python function
of the core pipeline is translated into a Lean definition of the same name
(where Lean's naming rules allow), and the two external collaborators —
the `git diff` subprocess and the `difflib.SequenceMatcher` similarity
score — are abstracted as parameters, exactly at the interface the spec
assigns them.
-/

namespace XlsxDiff

/-- Text is modelled as a list of characters. -/
abbrev Txt := List Char

/-- Python `str.replace(old, new)` for a one-character pattern `old`:
replaces every occurrence of `c` by `rep`, scanning left to right. -/
def replace1 (c : Char) (rep : Txt) : Txt → Txt
  | [] => []
  | a :: rest => (if a = c then rep else [a]) ++ replace1 c rep rest

/-- Python `str.replace(old, new)` for a two-character pattern `old = c₁c₂`:
replaces every non-overlapping occurrence, scanning left to right. -/
def replace2 (c₁ c₂ : Char) (rep : Txt) : Txt → Txt
  | [] => []
  | [a] => [a]
  | a :: b :: rest =>
    if a = c₁ ∧ b = c₂ then rep ++ replace2 c₁ c₂ rep rest
    else a :: replace2 c₁ c₂ rep (b :: rest)

/-- `xlsx_diff.py` line 128: the Sheet Summarizer's escaping of a cell text,
`text.replace('\n', '\\n').replace('\r', '\\r')` (newline first, then CR). -/
def escapeText (t : Txt) : Txt :=
  replace1 '\r' ['\\', 'r'] (replace1 '\n' ['\\', 'n'] t)

/-- `xlsx_diff.py` lines 285-291: the Report Renderer's display unescaping of a
line, `line.replace('\\n', '\n ').replace('\\r', '\r')`.  Note the replacement
for `\\n` is a newline FOLLOWED BY A SPACE, as in the source. -/
def displayUnescape (l : Txt) : Txt :=
  replace2 '\\' 'r' ['\r'] (replace2 '\\' 'n' ['\n', ' '] l)

/-- An uppercase ASCII letter (`A`..`Z`), i.e. code point in `[65, 90]`. -/
def isUpChar (c : Char) : Bool := 65 ≤ c.toNat && c.toNat ≤ 90

/-- A decimal digit (`0`..`9`), i.e. code point in `[48, 57]`; the `\d` of
the source's regexes and the digits accepted by `int()` (the XML attributes
involved carry ASCII decimals). -/
def isDigitChar (c : Char) : Bool := 48 ≤ c.toNat && c.toNat ≤ 57

/-- The loop of `get_next_excel_column_name` (`xlsx_diff.py` lines 79-88):
Python iterates the characters in reverse with a running carry starting at 1;
here the recursion processes the tail (the less significant letters) first and
returns the pair (carry out, transformed letters).  For each character,
`new_char_val = ord(char) - ord('A') + carry`, the outgoing digit is
`chr(ord('A') + new_char_val % 26)` and the carry is `new_char_val // 26`. -/
def nextColCore : List Char → Nat × List Char
  | [] => (1, [])
  | c :: rest =>
    let p := nextColCore rest
    let v := c.toNat - 65 + p.1
    (v / 26, Char.ofNat (65 + v % 26) :: p.2)

/-- `get_next_excel_column_name` (`xlsx_diff.py` lines 79-88): base-26 column
successor; a final carry prepends a leading `'A'` (`if carry:` in Python is
truthiness, i.e. carry ≠ 0). -/
def get_next_excel_column_name (s : List Char) : List Char :=
  if (nextColCore s).1 ≠ 0 then 'A' :: (nextColCore s).2 else (nextColCore s).2

/-- The numeric value of a column-letter string in the bijective base-26
reading `A=1 … Z=26`, `AA=27`, … (most significant letter first). -/
def colVal (s : List Char) : Nat :=
  s.foldl (fun a c => a * 26 + (c.toNat - 64)) 0

/-- Decimal digits of a natural number, as produced by Python `str(n)`;
fuel-based long division by 10 (the fuel `n + 1` always suffices). -/
def natDigitsAux : Nat → Nat → Txt
  | 0, _ => []
  | fuel + 1, n =>
    if n < 10 then [Char.ofNat (48 + n)]
    else natDigitsAux fuel (n / 10) ++ [Char.ofNat (48 + n % 10)]

/-- Python `str(row_number)` for a natural number. -/
def natDigits (n : Nat) : Txt := natDigitsAux (n + 1) n

/-- `re.match(r'([A-Z]+)\d+', s)` returning group 1 (`xlsx_diff.py` lines
95, 119): the match succeeds exactly when `s` starts with a non-empty run of
uppercase letters followed by a digit, and group 1 is that run.  (The regex
is anchored at the start and does not require matching to the end.) -/
def colRowMatch (s : Txt) : Option Txt :=
  let letters := s.takeWhile isUpChar
  if letters = [] then none
  else
    match (s.drop letters.length).head? with
    | some d => if isDigitChar d then some letters else none
    | none => none

/-- A `<c>` cell element as the Sheet Summarizer sees it: its optional `r`
(location reference) attribute, and `some t` when the cell has a first child
element whose text is non-`None` (`value = cell[0] …; value.text`), else
`none`. -/
structure SCell where
  ref : Option Txt
  text : Option Txt

/-- A `<row>` element: its optional numeric `r` attribute (Python parses the
attribute string with `int(...)`; a well-formed sheet carries a decimal
number there, modelled as `Option Nat`) and its cells in document order. -/
structure SRow where
  rAttr : Option Nat
  cells : List SCell

/-- The per-cell location logic of `summarize_sheet_files` (`xlsx_diff.py`
lines 113-125).  Given the current row number and the tracked
`last_cell_location`, returns the cell's location and the new value of
`last_cell_location`; `none` models the `AttributeError` Python raises when
`pattern.match(last_cell_location)` fails.  Note that in the middle branch
(`elif last_cell_location is not None`) the source does NOT update
`last_cell_location`. -/
def cellLocation (rowNum : Nat) (lastLoc : Option Txt) (ref : Option Txt) :
    Option (Txt × Option Txt) :=
  match ref with
  | some loc => some (loc, some loc)
  | none =>
    match lastLoc with
    | some prev =>
      (colRowMatch prev).map
        (fun letters => (get_next_excel_column_name letters ++ natDigits rowNum, some prev))
    | none =>
      some ('A' :: natDigits rowNum, some ('A' :: natDigits rowNum))

/-- The cell loop of `summarize_sheet_files` (`xlsx_diff.py` lines 112-130)
for one row: walks the cells in document order, threading
`last_cell_location`, and collects the escaped text lines and the parallel
location list for the cells that carry a text value. -/
def summarizeCells (rowNum : Nat) : Option Txt → List SCell → Option (List Txt × List Txt)
  | _, [] => some ([], [])
  | lastLoc, c :: cs =>
    match cellLocation rowNum lastLoc c.ref with
    | none => none
    | some (loc, lastLoc') =>
      match summarizeCells rowNum lastLoc' cs with
      | none => none
      | some (ts, ls) =>
        match c.text with
        | some t => some ((escapeText t ++ ['\n']) :: ts, loc :: ls)
        | none => some (ts, ls)

/-- The row loop of `summarize_sheet_files` (`xlsx_diff.py` lines 105-130):
`row_number` starts at 0, is taken from the row's `r` attribute when present
and is the previous row's number + 1 otherwise; `last_cell_location` is reset
at the start of each row. -/
def summarizeRows : Nat → List SRow → Option (List Txt × List Txt)
  | _, [] => some ([], [])
  | rowNum, r :: rs =>
    let rn := match r.rAttr with | some n => n | none => rowNum + 1
    match summarizeCells rn none r.cells with
    | none => none
    | some (ts, ls) =>
      match summarizeRows rn rs with
      | none => none
      | some (ts', ls') => some (ts ++ ts', ls ++ ls')

/-- `summarize_sheet_files` (`xlsx_diff.py` lines 93-134), for one sheet: the
value stored in `summaries[sheet_name]`, i.e. the pair
`[elements_text, location]`. -/
def summarize_sheet_files (rows : List SRow) : Option (List Txt × List Txt) :=
  summarizeRows 0 rows

/-- Reference sequence for the Sheet Summarizer, following the spec's words:
"an ordered sequence of `(coordinate, text)`" pairs, one per cell carrying a
text value.  Same walk as `summarizeCells`, emitting pairs. -/
def pairsCells (rowNum : Nat) : Option Txt → List SCell → Option (List (Txt × Txt))
  | _, [] => some []
  | lastLoc, c :: cs =>
    match cellLocation rowNum lastLoc c.ref with
    | none => none
    | some (loc, lastLoc') =>
      match pairsCells rowNum lastLoc' cs with
      | none => none
      | some ps =>
        match c.text with
        | some t => some ((loc, escapeText t ++ ['\n']) :: ps)
        | none => some ps

/-- Reference sequence for the Sheet Summarizer, row level (spec side). -/
def pairsRows : Nat → List SRow → Option (List (Txt × Txt))
  | _, [] => some []
  | rowNum, r :: rs =>
    let rn := match r.rAttr with | some n => n | none => rowNum + 1
    match pairsCells rn none r.cells with
    | none => none
    | some ps =>
      match pairsRows rn rs with
      | none => none
      | some ps' => some (ps ++ ps')

/-- Spec-side summary of one sheet as a single sequence of
`(coordinate, text)` pairs. -/
def summaryPairsSpec (rows : List SRow) : Option (List (Txt × Txt)) :=
  pairsRows 0 rows

/-- A non-empty all-digit string parsed as a natural number, else `none`. -/
def parseDigits (s : Txt) : Option Nat :=
  if s ≠ [] ∧ s.all isDigitChar then
    some (s.foldl (fun a c => a * 10 + (c.toNat - 48)) 0)
  else none

/-- Python `int(s)` on the canonical decimal forms: an optional sign followed
by a non-empty digit run (raises — returns `none` — otherwise; surrounding
whitespace and underscore separators, which Python also tolerates, do not
occur in the XML values this program parses). -/
def parseIntPy (s : Txt) : Option Int :=
  match s with
  | '-' :: rest => (parseDigits rest).map (fun n => -(n : Int))
  | '+' :: rest => (parseDigits rest).map (fun n => (n : Int))
  | _ => (parseDigits s).map (fun n => (n : Int))

/-- A `<c t="s">` cell as `replace_shared_strings_in_sheet` sees it:
whether its `t` attribute equals `"s"` (a shared-string reference), and
`some s` when it has a `<v>` child with non-`None` text `s`. -/
structure SSCell where
  sharedRef : Bool
  vText : Option Txt
deriving DecidableEq

/-- Python `index in shared_strings` followed by `shared_strings[index]`:
the dict maps the non-negative `si` positions to text, so a negative index is
never present. -/
def ssLookup (tbl : Nat → Option Txt) (z : Int) : Option Txt :=
  if z < 0 then none else tbl z.toNat

/-- The loop body of `replace_shared_strings_in_sheet` (`xlsx_diff.py` lines
32-37) for one cell: only cells with `t="s"` and a `<v>` with non-`None` text
are touched; `index = int(v.text)` (a raise is modelled as `none`); when the
index is in the table the text is replaced, otherwise left untouched. -/
def replaceCell (tbl : Nat → Option Txt) (c : SSCell) : Option SSCell :=
  if c.sharedRef then
    match c.vText with
    | some s =>
      match parseIntPy s with
      | none => none
      | some z =>
        match ssLookup tbl z with
        | some repl => some { c with vText := some repl }
        | none => some c
    | none => some c
  else some c

/-- `replace_shared_strings_in_sheet` (`xlsx_diff.py` lines 27-39) over the
sheet's shared-string cells in document order. -/
def replace_shared_strings_in_sheet (tbl : Nat → Option Txt) :
    List SSCell → Option (List SSCell)
  | [] => some []
  | c :: cs =>
    match replaceCell tbl c with
    | none => none
    | some c' =>
      match replace_shared_strings_in_sheet tbl cs with
      | none => none
      | some cs' => some (c' :: cs')

/-- The first new-sheet name accepted as rename target for `nameFrom`
(`xlsx_diff.py` lines 238-244): the loop over `sheet_names_to` with
`if name_to != name_from` and `similarity(...) > 0.5`, stopping at the first
match.  `sim` abstracts `difflib.SequenceMatcher(None, a, b).ratio()`, an
external library collaborator; its float values embed exactly into `ℚ`. -/
def findRenameTarget (sim : List Txt → List Txt → ℚ) (contentFrom : List Txt)
    (nameFrom : String) (namesTo : List String) (summTo : String → List Txt) :
    Option String :=
  namesTo.find? (fun nameTo =>
    decide (nameTo ≠ nameFrom) && decide ((1 : ℚ) / 2 < sim contentFrom (summTo nameTo)))

/-- The removed/renamed loop of `compare_sheet_names` (`xlsx_diff.py` lines
234-246): old names present in the new set are skipped; otherwise the first
matching rename target is taken, else the name is removed.  Results are in
old-name iteration order. -/
def classifyOld (sim : List Txt → List Txt → ℚ) (namesTo : List String)
    (summFrom summTo : String → List Txt) :
    List String → List String × List (String × String)
  | [] => ([], [])
  | nameFrom :: rest =>
    let acc := classifyOld sim namesTo summFrom summTo rest
    if nameFrom ∈ namesTo then acc
    else
      match findRenameTarget sim (summFrom nameFrom) nameFrom namesTo summTo with
      | some nameTo => (acc.1, (nameFrom, nameTo) :: acc.2)
      | none => (nameFrom :: acc.1, acc.2)

/-- `compare_sheet_names` (`xlsx_diff.py` lines 228-253): returns
`(added_sheets, removed_sheets, renamed_sheets)`. -/
def compare_sheet_names (sim : List Txt → List Txt → ℚ)
    (namesFrom namesTo : List String) (summFrom summTo : String → List Txt) :
    List String × List String × List (String × String) :=
  let rr := classifyOld sim namesTo summFrom summTo namesFrom
  let added := namesTo.filter
    (fun nameTo => decide (nameTo ∉ namesFrom) && decide (nameTo ∉ rr.2.map Prod.snd))
  (added, rr.1, rr.2)

/-- The outcome of the external `git diff --no-index` subprocess for one
sheet pair (`subprocess.run`, `xlsx_diff.py` line 145): exit status, standard
output already split into lines with their endings kept
(`splitlines(True)`), and standard error. -/
structure EngineResult where
  returncode : Int
  stdout : List Txt
  stderr : Txt

/-- The message printed on the engine-error path (`xlsx_diff.py` line 148). -/
def errMsg (stderr : Txt) : Txt :=
  ("An error occurred while running git diff: ".data) ++ stderr

/-- A fresh temporary-file name: one more than the largest name in use,
modelling `tempfile.NamedTemporaryFile(delete=False)` creating a new file. -/
def freshName (fs : List Nat) : Nat := fs.foldr max 0 + 1

/-- `diff_files` (`xlsx_diff.py` lines 136-161).  The filesystem is the list
`fs` of existing temporary-file names; the two temp files are created
(appended) first.  On `returncode ∉ {0, 1}` the function prints the error and
returns `[]` WITHOUT removing the files; otherwise the first two lines of
`git diff`'s output are dropped, the two label lines are substituted when
more than one line remains, and both temp files are removed (`os.remove`).
Returns (diff output, printed error report, remaining files). -/
def diff_files (linesFrom linesTo : List Txt) (r : EngineResult)
    (fileFromName fileToName : Txt) (fs : List Nat) :
    List Txt × Option Txt × List Nat :=
  let f1 := freshName fs
  let fs1 := fs ++ [f1]
  let f2 := freshName fs1
  let fs2 := fs1 ++ [f2]
  if r.returncode ≠ 0 ∧ r.returncode ≠ 1 then
    ([], some (errMsg r.stderr), fs2)
  else
    let d := r.stdout.drop 2
    let d' :=
      if 1 < d.length then
        (("--- ".data) ++ fileFromName ++ ['\n'])
          :: (("+++ ".data) ++ fileToName ++ ['\n'])
          :: d.drop 2
      else d
    (d', none, (fs2.erase f2).erase f1)

/-- The terminal color codes used for annotation lines
(`xlsx_diff.py` lines 200-201). -/
def grayCode : Txt := '\x1b' :: "[38;5;232m".data

/-- `'\033[0m'`, the reset code. -/
def resetCode : Txt := '\x1b' :: "[0m".data

/-- The annotation line inserted before a pure-removal line
(`xlsx_diff.py` line 209): `gray + "(-" + loc + ")" + reset + "\n"`. -/
def annMinus (loc : Txt) : Txt :=
  grayCode ++ ['(', '-'] ++ loc ++ [')'] ++ resetCode ++ ['\n']

/-- The annotation line inserted before a pure-addition line (line 212). -/
def annPlus (loc : Txt) : Txt :=
  grayCode ++ ['(', '+'] ++ loc ++ [')'] ++ resetCode ++ ['\n']

/-- The annotation line inserted before a paired context/modify line
(line 215): `gray + "(-" + a + " +" + b + ")" + reset + "\n"`. -/
def annBoth (a b : Txt) : Txt :=
  grayCode ++ ['(', '-'] ++ a ++ [' ', '+'] ++ b ++ [')'] ++ resetCode ++ ['\n']

/-- The annotation for one hunk line given the two cursors, mirroring the
branch structure of `xlsx_diff.py` lines 208-217; `none` models the
`IndexError` raised when a cursor has run past its coordinate slice. -/
def annFor (locsF locsT : List Txt) (i j : Nat) (line : Txt) : Option Txt :=
  if line.head? = some '-' then (locsF[i]?).map annMinus
  else if line.head? = some '+' then (locsT[j]?).map annPlus
  else
    match locsF[i]?, locsT[j]? with
    | some a, some b => some (annBoth a b)
    | _, _ => none

/-- Whether a hunk line consumes the old-side cursor (`i`): every line that
does not start with `'+'` (`xlsx_diff.py` lines 208-217). -/
def takesOld (line : Txt) : Bool := line.head? != some '+'

/-- Whether a hunk line consumes the new-side cursor (`j`): every line that
does not start with `'-'`. -/
def takesNew (line : Txt) : Bool := line.head? != some '-'

/-- Number of old-cursor consumptions among the first `m` hunk lines. -/
def oldCnt (body : List Txt) (m : Nat) : Nat :=
  ((body.take m).filter takesOld).length

/-- Number of new-cursor consumptions among the first `m` hunk lines. -/
def newCnt (body : List Txt) (m : Nat) : Nat :=
  ((body.take m).filter takesNew).length

/-- The per-hunk annotation walk (`xlsx_diff.py` lines 203-219): starting
right after the hunk header with cursors `i`, `j`, while `i < from_count or
j < to_count` the next line is examined, the matching annotation is inserted
immediately before it and the matching cursor(s) advance (`idx += 2` then
steps past the inserted annotation and the examined line, so the walk
consumes the original lines in order).  Returns the annotated consumed
segment and the remaining unconsumed lines; `none` models the `IndexError`
on a missing line or an out-of-range cursor. -/
def walkHunk (locsF locsT : List Txt) (fc tc : Nat) :
    Nat → Nat → List Txt → Option (List Txt × List Txt)
  | i, j, [] => if i < fc ∨ j < tc then none else some ([], [])
  | i, j, line :: rest =>
    if i < fc ∨ j < tc then
      if line.head? = some '-' then
        match locsF[i]? with
        | none => none
        | some a =>
          match walkHunk locsF locsT fc tc (i + 1) j rest with
          | none => none
          | some (out, rem) => some (annMinus a :: line :: out, rem)
      else if line.head? = some '+' then
        match locsT[j]? with
        | none => none
        | some b =>
          match walkHunk locsF locsT fc tc i (j + 1) rest with
          | none => none
          | some (out, rem) => some (annPlus b :: line :: out, rem)
      else
        match locsF[i]?, locsT[j]? with
        | some a, some b =>
          match walkHunk locsF locsT fc tc (i + 1) (j + 1) rest with
          | none => none
          | some (out, rem) => some (annBoth a b :: line :: out, rem)
        | _, _ => none
    else some ([], line :: rest)

/-- One hunk of `compare_dirs` (`xlsx_diff.py` lines 196-219): the coordinate
lists are sliced at `[from_start-1 : from_start-1+from_count]` and
`[to_start-1 : to_start-1+to_count]` (lines 197-198) and the annotation walk
runs from cursors `(0, 0)`. -/
def processHunk (locsF locsT : List Txt) (fromStart fromCount toStart toCount : Nat)
    (body : List Txt) : Option (List Txt × List Txt) :=
  walkHunk ((locsF.drop (fromStart - 1)).take fromCount)
    ((locsT.drop (toStart - 1)).take toCount) fromCount toCount 0 0 body

/-- A non-empty leading digit run and the rest of the string (`\d+`). -/
def takeNum (s : Txt) : Option (Nat × Txt) :=
  let ds := s.takeWhile isDigitChar
  if ds = [] then none
  else some (ds.foldl (fun a c => a * 10 + (c.toNat - 48)) 0, s.drop ds.length)

/-- Strips `p` from the front of `s`, or fails. -/
def dropLit (p s : Txt) : Option Txt :=
  if s.take p.length = p then some (s.drop p.length) else none

/-- `re.match(r'@@ -(\d+)(,(\d+))? \+(\d+)(,(\d+))? @@', line)`
(`xlsx_diff.py` lines 186-192): parses a unified-diff hunk header prefix,
with each count defaulting to 1 when the optional `,count` group is absent.
Returns `(from_start, from_count, to_start, to_count)`. -/
def parseHunkHeader (line : Txt) : Option (Nat × Nat × Nat × Nat) :=
  match dropLit ("@@ -".data) line with
  | none => none
  | some r1 =>
    match takeNum r1 with
    | none => none
    | some (fs, r2) =>
      let fcr : Option (Nat × Txt) :=
        match r2 with
        | ',' :: r => takeNum r
        | _ => some (1, r2)
      match fcr with
      | none => none
      | some (fc, r3) =>
        match dropLit (" +".data) r3 with
        | none => none
        | some r4 =>
          match takeNum r4 with
          | none => none
          | some (ts, r5) =>
            let tcr : Option (Nat × Txt) :=
              match r5 with
              | ',' :: r => takeNum r
              | _ => some (1, r5)
            match tcr with
            | none => none
            | some (tc, r6) =>
              match dropLit (" @@".data) r6 with
              | none => none
              | some _ => some (fs, fc, ts, tc)

/-- The in-progress state of one hunk while annotating: the two sliced
coordinate lists, the hunk counts and the two cursors. -/
structure HunkState where
  subF : List Txt
  subT : List Txt
  fc : Nat
  tc : Nat
  i : Nat
  j : Nat

/-- Cursor advance for one consumed hunk line (`i += 1` / `j += 1` / both). -/
def advanceHunk (hs : HunkState) (line : Txt) : HunkState :=
  if line.head? = some '-' then { hs with i := hs.i + 1 }
  else if line.head? = some '+' then { hs with j := hs.j + 1 }
  else { hs with i := hs.i + 1, j := hs.j + 1 }

/-- Opens a hunk: slices the coordinate lists (`xlsx_diff.py` lines 197-198)
and resets the cursors. -/
def mkHunkState (locsF locsT : List Txt) (fs fc ts tc : Nat) : HunkState :=
  ⟨(locsF.drop (fs - 1)).take fc, (locsT.drop (ts - 1)).take tc, fc, tc, 0, 0⟩

/-- The annotation pass of `compare_dirs` (`xlsx_diff.py` lines 183-219) as a
single left-to-right walk over the diff lines: hunk headers are recognised by
the regex, each opens a hunk whose following lines are annotated until both
cursors reach their counts (the insert-at-`idx`-then-`idx += 2` loop of the
source visits exactly the original lines in order, inserting one annotation
line immediately before each consumed line); all lines are kept.  `none`
models the `IndexError` cases. -/
def annLines (locsF locsT : List Txt) : Option HunkState → List Txt → Option (List Txt)
  | some hs, [] => if hs.i < hs.fc ∨ hs.j < hs.tc then none else some []
  | none, [] => some []
  | some hs, line :: rest =>
    if hs.i < hs.fc ∨ hs.j < hs.tc then
      match annFor hs.subF hs.subT hs.i hs.j line with
      | none => none
      | some ann =>
        (annLines locsF locsT (some (advanceHunk hs line)) rest).map
          (fun out => ann :: line :: out)
    else
      match parseHunkHeader line with
      | some (fs, fc, ts, tc) =>
        (annLines locsF locsT (some (mkHunkState locsF locsT fs fc ts tc)) rest).map
          (fun out => line :: out)
      | none => (annLines locsF locsT none rest).map (fun out => line :: out)
  | none, line :: rest =>
    match parseHunkHeader line with
    | some (fs, fc, ts, tc) =>
      (annLines locsF locsT (some (mkHunkState locsF locsT fs fc ts tc)) rest).map
        (fun out => line :: out)
    | none => (annLines locsF locsT none rest).map (fun out => line :: out)

/-- The full annotation pass over one sheet pair's diff output
(`diff_list` → `diff_list_final`). -/
def annotate_diff (locsF locsT : List Txt) (diffList : List Txt) : Option (List Txt) :=
  annLines locsF locsT none diffList

/-- One iteration of the `compare_dirs` loop (`xlsx_diff.py` lines 166-221)
for sheet `name`: removed sheets are skipped; a renamed sheet reads the new
side under its new name (the first pair in `renamed_sheets` whose first
component is `name`); the external diff runs on the two line sequences and
the annotation pass follows.  `engine` abstracts the subprocess outcome for
this sheet pair.  Returns this pair's contribution to `differences` and the
error reports printed while processing it. -/
def compare_one (engine : String → EngineResult)
    (summFrom summTo : String → List Txt × List Txt) (fileFrom fileTo : Txt)
    (removed : List String) (renamed : List (String × String)) (name : String) :
    Option (List Txt × List Txt) :=
  if name ∈ removed then some ([], [])
  else
    let nameTo :=
      match renamed.find? (fun p => p.1 = name) with
      | some p => p.2
      | none => name
    let linesFrom := (summFrom name).1
    let linesTo := (summTo nameTo).1
    let locsFrom := (summFrom name).2
    let locsTo := (summTo nameTo).2
    let r := diff_files linesFrom linesTo (engine name)
      (fileFrom ++ ' ' :: name.data) (fileTo ++ ' ' :: nameTo.data) []
    match annotate_diff locsFrom locsTo r.1 with
    | none => none
    | some final => some (final, r.2.1.toList)

/-- `compare_dirs` (`xlsx_diff.py` lines 163-223): iterates the old-side
sheet names in order, extending `differences` with each sheet pair's
annotated diff; the second component collects the error reports printed
along the way. -/
def compare_dirs (engine : String → EngineResult)
    (summFrom summTo : String → List Txt × List Txt) (fileFrom fileTo : Txt)
    (removed : List String) (renamed : List (String × String)) :
    List String → Option (List Txt × List Txt)
  | [] => some ([], [])
  | n :: ns =>
    match compare_one engine summFrom summTo fileFrom fileTo removed renamed n with
    | none => none
    | some (d, rep) =>
      match compare_dirs engine summFrom summTo fileFrom fileTo removed renamed ns with
      | none => none
      | some (ds, reps) => some (d ++ ds, rep ++ reps)

/-- Chunk image of one character under the renderer's first replace
(`line.replace('\\n', '\n ')`) applied to escaped text. -/
def midChunk (a : Char) : Txt :=
  if a = '\n' then ['\n', ' '] else if a = '\r' then ['\\', 'r'] else [a]

/-- `midChunk` mapped over a text. -/
def midMap : Txt → Txt
  | [] => []
  | a :: t => midChunk a ++ midMap t

/-- Chunk image of one character under the full escape-then-unescape round
trip: a newline becomes newline-plus-space, everything else is unchanged. -/
def finChunk (a : Char) : Txt :=
  if a = '\n' then ['\n', ' '] else [a]

/-- `finChunk` mapped over a text. -/
def finMap : Txt → Txt
  | [] => []
  | a :: t => finChunk a ++ finMap t

lemma char_toNat_ofNat {n : Nat} (h : n < 0xd800) : (Char.ofNat n).toNat = n := by
  simp only [Char.ofNat, Char.toNat]
  split
  · rfl
  · rename_i hv
    exact absurd (Or.inl h) hv

lemma colVal_foldl_init (l : List Char) (a : Nat) :
    l.foldl (fun a c => a * 26 + (c.toNat - 64)) a
      = a * 26 ^ l.length + l.foldl (fun a c => a * 26 + (c.toNat - 64)) 0 := by
  induction l generalizing a with
  | nil => simp
  | cons c rest ih =>
    simp only [List.foldl_cons, List.length_cons]
    rw [ih (a * 26 + (c.toNat - 64)), ih (0 * 26 + (c.toNat - 64))]
    ring

lemma colVal_cons (c : Char) (l : List Char) :
    colVal (c :: l) = (c.toNat - 64) * 26 ^ l.length + colVal l := by
  simp only [colVal, List.foldl_cons]
  rw [colVal_foldl_init]
  ring

lemma nextColCore_spec (s : List Char) (hs : s.all isUpChar = true) :
    (nextColCore s).1 ≤ 1 ∧ (nextColCore s).2.length = s.length ∧
    (nextColCore s).2.all isUpChar = true ∧
    colVal s + 1 = (nextColCore s).1 * 26 ^ s.length + colVal (nextColCore s).2 := by
  induction s with
  | nil => simp [nextColCore, colVal]
  | cons c rest ih =>
    simp only [List.all_cons, Bool.and_eq_true] at hs
    obtain ⟨hc, hrest⟩ := hs
    obtain ⟨ihc, ihlen, ihup, ihval⟩ := ih hrest
    have hcb : 65 ≤ c.toNat ∧ c.toNat ≤ 90 := by
      simpa [isUpChar, Bool.and_eq_true, decide_eq_true_eq] using hc
    set p := nextColCore rest with hp
    set v := c.toNat - 65 + p.1 with hv
    have hv26 : v ≤ 26 := by omega
    have hdig : (Char.ofNat (65 + v % 26)).toNat = 65 + v % 26 := by
      have : 65 + v % 26 < 0xd800 := by
        have := Nat.mod_lt v (show 0 < 26 by norm_num)
        omega
      exact char_toNat_ofNat this
    have hcore : nextColCore (c :: rest) = (v / 26, Char.ofNat (65 + v % 26) :: p.2) := by
      simp [nextColCore, ← hp, ← hv]
    refine ⟨?_, ?_, ?_, ?_⟩
    · rw [hcore]
      exact Nat.div_le_div_right (c := 26) hv26
    · rw [hcore]
      simp [ihlen]
    · rw [hcore]
      simp only [List.all_cons, Bool.and_eq_true]
      refine ⟨?_, ihup⟩
      have : v % 26 < 26 := Nat.mod_lt v (by norm_num)
      simp [isUpChar, hdig]
      omega
    · rw [hcore]
      simp only
      rw [colVal_cons, colVal_cons, hdig, ihlen, List.length_cons]
      have hdm : 26 * (v / 26) + v % 26 = v := Nat.div_add_mod v 26
      set e := 26 ^ rest.length with he
      have hpow : 26 ^ (rest.length + 1) = 26 * e := by
        rw [he, pow_succ]
        ring
      rw [hpow]
      have h65 : 65 + v % 26 - 64 = v % 26 + 1 := by omega
      rw [h65]
      have key : c.toNat - 64 + p.1 = v + 1 := by omega
      have expand : (c.toNat - 64) * e + (colVal rest + 1) = (v + 1) * e + colVal p.2 := by
        rw [ihval]
        calc (c.toNat - 64) * e + (p.1 * e + colVal p.2)
            = (c.toNat - 64 + p.1) * e + colVal p.2 := by ring
          _ = (v + 1) * e + colVal p.2 := by rw [key]
      have hco : 26 * (v / 26) + v % 26 + 1 = v + 1 := by omega
      have hrhs : v / 26 * (26 * e) + ((v % 26 + 1) * e + colVal p.2)
          = (v + 1) * e + colVal p.2 := by
        calc v / 26 * (26 * e) + ((v % 26 + 1) * e + colVal p.2)
            = (26 * (v / 26) + v % 26 + 1) * e + colVal p.2 := by ring
          _ = (v + 1) * e + colVal p.2 := by rw [hco]
      omega

lemma get_next_increments (s : List Char) (hs : s.all isUpChar = true) :
    colVal (get_next_excel_column_name s) = colVal s + 1 ∧
    (get_next_excel_column_name s).all isUpChar = true ∧
    get_next_excel_column_name s ≠ [] := by
  obtain ⟨hc, hlen, hup, hval⟩ := nextColCore_spec s hs
  unfold get_next_excel_column_name
  by_cases h0 : (nextColCore s).1 = 0
  · rw [h0] at hval
    simp only [zero_mul, zero_add] at hval
    rw [if_neg (not_not_intro h0)]
    refine ⟨hval.symm, hup, ?_⟩
    intro hnil
    rw [hnil] at hval
    simp [colVal] at hval
  · have h1 : (nextColCore s).1 = 1 := by omega
    rw [h1] at hval
    simp only [one_mul] at hval
    rw [if_pos h0]
    refine ⟨?_, ?_, by simp⟩
    · rw [colVal_cons, hlen]
      have hA : ('A').toNat - 64 = 1 := by decide
      rw [hA, one_mul]
      omega
    · simp only [List.all_cons, Bool.and_eq_true]
      exact ⟨by decide, hup⟩

/-- C7: The column-increment operation is the base-26 successor on non-empty
uppercase letter strings (A=1 … Z=26, with `colVal` the bijective base-26
value, the successor adding a leading letter on overflow and producing an
uppercase non-empty string again); in particular increment("A") = "B",
increment("Z") = "AA", increment("AZ") = "BA", and increment("ZZ") = "AAA". -/
theorem c7_theorem :
    (∀ s : List Char, s ≠ [] → s.all isUpChar = true →
        colVal (get_next_excel_column_name s) = colVal s + 1 ∧
        (get_next_excel_column_name s).all isUpChar = true ∧
        get_next_excel_column_name s ≠ []) ∧
    get_next_excel_column_name ['A'] = ['B'] ∧
    get_next_excel_column_name ['Z'] = ['A', 'A'] ∧
    get_next_excel_column_name ['A', 'Z'] = ['B', 'A'] ∧
    get_next_excel_column_name ['Z', 'Z'] = ['A', 'A', 'A'] := by
  refine ⟨fun s _ hs => get_next_increments s hs, ?_, ?_, ?_, ?_⟩ <;> decide

/-- Witness for `c7_theorem` at the concrete column "AZ". -/
theorem c7_witness :
    ((['A', 'Z'] : List Char) ≠ [] ∧ (['A', 'Z'] : List Char).all isUpChar = true) ∧
    (colVal (get_next_excel_column_name ['A', 'Z']) = colVal ['A', 'Z'] + 1 ∧
      (get_next_excel_column_name ['A', 'Z']).all isUpChar = true ∧
      get_next_excel_column_name ['A', 'Z'] ≠ []) :=
  ⟨⟨by decide, by decide⟩, c7_theorem.1 ['A', 'Z'] (by decide) (by decide)⟩

lemma replace1_append (c : Char) (rep : Txt) (xs ys : Txt) :
    replace1 c rep (xs ++ ys) = replace1 c rep xs ++ replace1 c rep ys := by
  induction xs with
  | nil => simp [replace1]
  | cons a t ih => simp [replace1, ih]

lemma escapeText_cons (a : Char) (t : Txt) :
    escapeText (a :: t) =
      (if a = '\n' then ['\\', 'n'] else if a = '\r' then ['\\', 'r'] else [a])
        ++ escapeText t := by
  unfold escapeText
  have hstep : replace1 '\n' ['\\', 'n'] (a :: t)
      = (if a = '\n' then ['\\', 'n'] else [a]) ++ replace1 '\n' ['\\', 'n'] t := by
    simp [replace1]
  rw [hstep, replace1_append]
  by_cases h1 : a = '\n'
  · subst h1
    simp [replace1]
  · by_cases h2 : a = '\r'
    · subst h2
      simp [replace1, h1]
    · simp [replace1, h1, h2]

lemma replace2_cons_ne (c₂ : Char) (rep : Txt) (x : Char) (w : Txt) (hx : x ≠ '\\') :
    replace2 '\\' c₂ rep (x :: w) = x :: replace2 '\\' c₂ rep w := by
  cases w with
  | nil => simp [replace2]
  | cons b w' => simp [replace2, hx]

lemma unescape_step1 (t : Txt) (h : '\\' ∉ t) :
    replace2 '\\' 'n' ['\n', ' '] (escapeText t) = midMap t := by
  induction t with
  | nil => simp [escapeText, replace1, replace2, midMap]
  | cons a t ih =>
    have ha : a ≠ '\\' := fun hh => h (by rw [hh]; exact List.mem_cons_self '\\' t)
    have ht : '\\' ∉ t := fun hm => h (List.mem_cons_of_mem a hm)
    rw [escapeText_cons, show midMap (a :: t) = midChunk a ++ midMap t from rfl]
    by_cases h1 : a = '\n'
    · subst h1
      rw [if_pos rfl,
        show (['\\', 'n'] ++ escapeText t) = '\\' :: 'n' :: escapeText t from rfl]
      simp [replace2, midChunk, ih ht]
    · by_cases h2 : a = '\r'
      · subst h2
        rw [if_neg h1, if_pos rfl,
          show (['\\', 'r'] ++ escapeText t) = '\\' :: 'r' :: escapeText t from rfl]
        have : replace2 '\\' 'n' ['\n', ' '] ('\\' :: 'r' :: escapeText t)
            = '\\' :: replace2 '\\' 'n' ['\n', ' '] ('r' :: escapeText t) := by
          simp [replace2]
        rw [this, replace2_cons_ne _ _ _ _ (by decide), ih ht]
        simp [midChunk]
      · rw [if_neg h1, if_neg h2, show ([a] ++ escapeText t) = a :: escapeText t from rfl,
          replace2_cons_ne _ _ _ _ ha, ih ht]
        simp [midChunk, h1, h2]

lemma unescape_step2 (t : Txt) (h : '\\' ∉ t) :
    replace2 '\\' 'r' ['\r'] (midMap t) = finMap t := by
  induction t with
  | nil => simp [midMap, replace2, finMap]
  | cons a t ih =>
    have ha : a ≠ '\\' := fun hh => h (by rw [hh]; exact List.mem_cons_self '\\' t)
    have ht : '\\' ∉ t := fun hm => h (List.mem_cons_of_mem a hm)
    rw [show midMap (a :: t) = midChunk a ++ midMap t from rfl,
      show finMap (a :: t) = finChunk a ++ finMap t from rfl]
    by_cases h1 : a = '\n'
    · subst h1
      rw [show midChunk '\n' = ['\n', ' '] from rfl,
        show (['\n', ' '] ++ midMap t) = '\n' :: ' ' :: midMap t from rfl,
        replace2_cons_ne _ _ _ _ (by decide), replace2_cons_ne _ _ _ _ (by decide), ih ht]
      simp [finChunk]
    · by_cases h2 : a = '\r'
      · subst h2
        rw [show midChunk '\r' = ['\\', 'r'] from rfl,
          show (['\\', 'r'] ++ midMap t) = '\\' :: 'r' :: midMap t from rfl]
        have : replace2 '\\' 'r' ['\r'] ('\\' :: 'r' :: midMap t)
            = ['\r'] ++ replace2 '\\' 'r' ['\r'] (midMap t) := by
          simp [replace2]
        rw [this, ih ht]
        simp [finChunk]
      · rw [show midChunk a = [a] from by simp [midChunk, h1, h2],
          show ([a] ++ midMap t) = a :: midMap t from rfl,
          replace2_cons_ne _ _ _ _ ha, ih ht]
        simp [finChunk, h1]

lemma finMap_eq_replace1 (t : Txt) : finMap t = replace1 '\n' ['\n', ' '] t := by
  induction t with
  | nil => rfl
  | cons a t ih =>
    rw [show finMap (a :: t) = finChunk a ++ finMap t from rfl, ih]
    simp [replace1, finChunk]

/-- C5 counterexample: on the cell text "a\nb" the escape/unescape round trip
yields "a\n b" (a space is inserted after the restored newline), not the
original text. -/
theorem c5_counterexample :
    displayUnescape (escapeText ['a', '\n', 'b']) = ['a', '\n', ' ', 'b'] ∧
    (['a', '\n', ' ', 'b'] : Txt) ≠ ['a', '\n', 'b'] := by
  exact ⟨by decide, by decide⟩

/-- C5 (amended): for every cell text containing no backslash, the Report
Renderer's display unescaping applied to the Sheet Summarizer's escaping
yields the original text with one space inserted after each newline
(carriage returns are restored exactly); the round trip is not the
identity. -/
theorem c5_theorem (t : Txt) (h : '\\' ∉ t) :
    displayUnescape (escapeText t) = replace1 '\n' ['\n', ' '] t := by
  unfold displayUnescape
  rw [unescape_step1 t h, unescape_step2 t h, finMap_eq_replace1]

/-- Witness for `c5_theorem` at the concrete cell text "x\ny". -/
theorem c5_witness :
    ('\\' ∉ (['x', '\n', 'y'] : Txt)) ∧
    displayUnescape (escapeText ['x', '\n', 'y'])
      = replace1 '\n' ['\n', ' '] ['x', '\n', 'y'] :=
  ⟨by decide, c5_theorem ['x', '\n', 'y'] (by decide)⟩

lemma replaceCell_resolves (tbl : Nat → Option Txt) (c : SSCell) (s : Txt) (i : Nat)
    (hsr : c.sharedRef = true) (hv : c.vText = some s)
    (hp : parseIntPy s = some (Int.ofNat i)) :
    replaceCell tbl c = some { c with vText := some ((tbl i).getD s) } := by
  have hlk : ssLookup tbl (i : Int) = tbl i := by
    unfold ssLookup
    rw [if_neg (not_lt.mpr (Int.natCast_nonneg i))]
    simp
  obtain ⟨sr, vt⟩ := c
  simp only at hsr hv
  subst hsr
  subst hv
  cases htbl : tbl i <;> simp [replaceCell, hp, hlk, htbl]

lemma replace_sheet_pointwise (tbl : Nat → Option Txt) (cells : List SSCell)
    (H : ∀ c ∈ cells, (replaceCell tbl c).isSome = true) :
    ∃ out, replace_shared_strings_in_sheet tbl cells = some out ∧
      out.length = cells.length ∧
      ∀ k : Nat, out[k]? = (cells[k]?).bind (replaceCell tbl) := by
  induction cells with
  | nil =>
    refine ⟨[], rfl, rfl, fun k => ?_⟩
    simp
  | cons c cs ih =>
    have hc := H c (List.mem_cons_self c cs)
    obtain ⟨c', hc'⟩ := Option.isSome_iff_exists.mp hc
    obtain ⟨out, hout, hlen, hk⟩ := ih (fun x hx => H x (List.mem_cons_of_mem c hx))
    refine ⟨c' :: out, ?_, by simp [hlen], ?_⟩
    · simp only [replace_shared_strings_in_sheet, hc', hout]
    · intro k
      cases k with
      | zero => simp [hc']
      | succ k => simpa using hk k

/-- C8: for every shared-string cell (`t="s"`, `<v>` text present) whose raw
value parses as a non-negative integer `i`, resolution succeeds and rewrites
the value to `table[i]` when `i` is in the table, and leaves the original
index text untouched when it is not; provided every shared cell's value
parses, the whole sheet resolves without failure, cell for cell. -/
theorem c8_theorem (tbl : Nat → Option Txt) (cells : List SSCell)
    (H : ∀ c ∈ cells, c.sharedRef = true → ∀ s, c.vText = some s →
      (parseIntPy s).isSome = true) :
    ∃ out, replace_shared_strings_in_sheet tbl cells = some out ∧
      out.length = cells.length ∧
      ∀ (k : Nat) (c : SSCell) (s : Txt) (i : Nat),
        cells[k]? = some c → c.sharedRef = true → c.vText = some s →
        parseIntPy s = some (Int.ofNat i) →
        (∀ repl, tbl i = some repl → out[k]? = some { c with vText := some repl }) ∧
        (tbl i = none → out[k]? = some c) := by
  have Hs : ∀ c ∈ cells, (replaceCell tbl c).isSome = true := by
    intro c hc
    obtain ⟨sr, vt⟩ := c
    cases sr with
    | false => simp [replaceCell]
    | true =>
      cases hvt : vt with
      | none => simp [replaceCell]
      | some s =>
        have hps := H _ hc rfl s (by rw [hvt])
        obtain ⟨z, hz⟩ := Option.isSome_iff_exists.mp hps
        subst hvt
        cases hlk : ssLookup tbl z <;> simp [replaceCell, hz, hlk]
  obtain ⟨out, hout, hlen, hk⟩ := replace_sheet_pointwise tbl cells Hs
  refine ⟨out, hout, hlen, ?_⟩
  intro k c s i hck hsr hv hp
  have hcell := replaceCell_resolves tbl c s i hsr hv hp
  have hkk : out[k]? = some { c with vText := some ((tbl i).getD s) } := by
    rw [hk k, hck]
    simpa using hcell
  constructor
  · intro repl hrepl
    rw [hkk, hrepl]
    rfl
  · intro hnone
    rw [hkk, hnone]
    simp only [Option.getD_none]
    have : ({ c with vText := some s } : SSCell) = c := by
      cases c with
      | mk sr vt => simp_all
    rw [this]

/-- Witness for `c8_theorem`: a two-cell sheet, one index present in the
table (resolved to the table text) and one absent (left untouched). -/
theorem c8_witness :
    ∃ out,
      replace_shared_strings_in_sheet (fun n => if n = 0 then some ['h'] else none)
          [⟨true, some ['0']⟩, ⟨true, some ['7']⟩] = some out ∧
      out.length = ([⟨true, some ['0']⟩, ⟨true, some ['7']⟩] : List SSCell).length ∧
      ∀ (k : Nat) (c : SSCell) (s : Txt) (i : Nat),
        ([⟨true, some ['0']⟩, ⟨true, some ['7']⟩] : List SSCell)[k]? = some c →
        c.sharedRef = true → c.vText = some s →
        parseIntPy s = some (Int.ofNat i) →
        (∀ repl, (fun n => if n = 0 then some ['h'] else none) i = some repl →
          out[k]? = some { c with vText := some repl }) ∧
        ((fun n => if n = 0 then some ['h'] else none) i = none → out[k]? = some c) := by
  refine c8_theorem _ _ ?_
  intro c hc hsr s hv
  rcases List.mem_cons.mp hc with rfl | hc2
  · cases hv
    decide
  · rcases List.mem_cons.mp hc2 with rfl | hc3
    · cases hv
      decide
    · cases hc3

/-- C1 counterexample: in a row with an explicitly located cell `A1` followed
by two cells without a reference attribute, the code assigns `B1` to BOTH
reference-less cells (the tracked previous location is not advanced), whereas
the claim predicts `C1` — the successor of the reconstructed column `B` —
for the second one. -/
theorem c1_counterexample :
    summarize_sheet_files
        [⟨some 1, [⟨some ['A', '1'], some ['x']⟩, ⟨none, some ['y']⟩, ⟨none, some ['z']⟩]⟩]
      = some ([['x', '\n'], ['y', '\n'], ['z', '\n']],
              [['A', '1'], ['B', '1'], ['B', '1']]) ∧
    get_next_excel_column_name ['B'] ++ natDigits 1 = ['C', '1'] ∧
    (['B', '1'] : Txt) ≠ ['C', '1'] := by
  exact ⟨by decide, by decide, by decide⟩

/-- C1 (amended): a cell without a reference attribute receives the base-26
successor of the column letters of the tracked previous location (the last
cell in the row that had an explicit reference, or the defaulted column-A
location when the row started without one), combined with the current row
number; a row-initial reference-less cell gets column A.  The tracked
location is NOT advanced by reconstruction, so consecutive reference-less
cells all receive that same coordinate rather than successive columns. -/
theorem c1_theorem :
    (∀ (rowNum : Nat) (prev letters : Txt), colRowMatch prev = some letters →
        cellLocation rowNum (some prev) none
          = some (get_next_excel_column_name letters ++ natDigits rowNum, some prev)) ∧
    (∀ rowNum : Nat, cellLocation rowNum none none
        = some ('A' :: natDigits rowNum, some ('A' :: natDigits rowNum))) ∧
    (∀ (rowNum : Nat) (prev letters : Txt) (cs : List SCell) (ts ls : List Txt),
        colRowMatch prev = some letters →
        (∀ c ∈ cs, c.ref = none) →
        summarizeCells rowNum (some prev) cs = some (ts, ls) →
        ∀ l ∈ ls, l = get_next_excel_column_name letters ++ natDigits rowNum) := by
  refine ⟨?_, ?_, ?_⟩
  · intro rowNum prev letters h
    simp [cellLocation, h]
  · intro rowNum
    rfl
  · intro rowNum prev letters cs
    induction cs with
    | nil =>
      intro ts ls _ _ hsum l hl
      simp only [summarizeCells, Option.some.injEq, Prod.mk.injEq] at hsum
      rw [← hsum.2] at hl
      cases hl
    | cons c cs ih =>
      intro ts ls h hall hsum l hl
      have hcref : c.ref = none := hall c (List.mem_cons_self c cs)
      have hloc : cellLocation rowNum (some prev) c.ref
          = some (get_next_excel_column_name letters ++ natDigits rowNum, some prev) := by
        rw [hcref]
        simp [cellLocation, h]
      simp only [summarizeCells, hloc] at hsum
      cases hrec : summarizeCells rowNum (some prev) cs with
      | none => simp [hrec] at hsum
      | some p =>
        obtain ⟨ts', ls'⟩ := p
        have ihrec := ih ts' ls' h (fun x hx => hall x (List.mem_cons_of_mem c hx)) hrec
        cases htext : c.text with
        | some t =>
          simp only [hrec, htext, Option.some.injEq, Prod.mk.injEq] at hsum
          rw [← hsum.2] at hl
          rcases List.mem_cons.mp hl with rfl | hl'
          · rfl
          · exact ihrec l hl'
        | none =>
          simp only [hrec, htext, Option.some.injEq, Prod.mk.injEq] at hsum
          rw [← hsum.2] at hl
          exact ihrec l hl

/-- Witness for `c1_theorem`: previous location "A1", one reference-less
cell; its coordinate is the successor column "B" with row 1. -/
theorem c1_witness :
    (colRowMatch ['A', '1'] = some ['A'] ∧
      cellLocation 1 (some ['A', '1']) none
        = some (get_next_excel_column_name ['A'] ++ natDigits 1, some ['A', '1'])) ∧
    (∀ l ∈ ([['B', '1']] : List Txt), l = get_next_excel_column_name ['A'] ++ natDigits 1) :=
  ⟨⟨by decide, c1_theorem.1 1 ['A', '1'] ['A'] (by decide)⟩,
    c1_theorem.2.2 1 ['A', '1'] ['A'] [⟨none, some ['y']⟩] [['y', '\n']] [['B', '1']]
      (by decide) (by decide) (by decide)⟩

lemma cells_pairs (rowNum : Nat) (lastLoc : Option Txt) (cs : List SCell) :
    summarizeCells rowNum lastLoc cs
      = (pairsCells rowNum lastLoc cs).map (fun ps => (ps.map Prod.snd, ps.map Prod.fst)) := by
  induction cs generalizing lastLoc with
  | nil => rfl
  | cons c cs ih =>
    simp only [summarizeCells, pairsCells]
    cases hloc : cellLocation rowNum lastLoc c.ref with
    | none => rfl
    | some p =>
      obtain ⟨loc, lastLoc'⟩ := p
      simp only
      rw [ih lastLoc']
      cases pairsCells rowNum lastLoc' cs with
      | none => rfl
      | some ps =>
        cases c.text with
        | some t => rfl
        | none => rfl

lemma rows_pairs (rowNum : Nat) (rows : List SRow) :
    summarizeRows rowNum rows
      = (pairsRows rowNum rows).map (fun ps => (ps.map Prod.snd, ps.map Prod.fst)) := by
  induction rows generalizing rowNum with
  | nil => rfl
  | cons r rs ih =>
    simp only [summarizeRows, pairsRows]
    rw [cells_pairs, ih]
    cases pairsCells (match r.rAttr with | some n => n | none => rowNum + 1) none r.cells with
    | none => rfl
    | some ps =>
      cases pairsRows (match r.rAttr with | some n => n | none => rowNum + 1) rs with
      | none => rfl
      | some ps' => simp

lemma natDigitsAux_bounds (fuel n : Nat) :
    ∀ c ∈ natDigitsAux fuel n, 48 ≤ c.toNat ∧ c.toNat ≤ 57 := by
  induction fuel generalizing n with
  | zero => simp [natDigitsAux]
  | succ fuel ih =>
    intro c hc
    simp only [natDigitsAux] at hc
    split at hc
    · rename_i hlt
      simp only [List.mem_singleton] at hc
      subst hc
      rw [char_toNat_ofNat (by omega)]
      omega
    · rename_i hge
      rcases List.mem_append.mp hc with hmem | hmem
      · exact ih (n / 10) c hmem
      · simp only [List.mem_singleton] at hmem
        subst hmem
        have : n % 10 < 10 := Nat.mod_lt n (by norm_num)
        rw [char_toNat_ofNat (by omega)]
        omega

lemma natDigits_ne_nil (n : Nat) : natDigits n ≠ [] := by
  unfold natDigits natDigitsAux
  split
  · simp
  · simp

lemma colRowMatch_default (rowNum : Nat) :
    (colRowMatch ('A' :: natDigits rowNum)).isSome = true := by
  cases hd : natDigits rowNum with
  | nil => exact absurd hd (natDigits_ne_nil rowNum)
  | cons d ds =>
    have hdbounds : 48 ≤ d.toNat ∧ d.toNat ≤ 57 := by
      have : d ∈ natDigits rowNum := by
        rw [hd]
        exact List.mem_cons_self d ds
      exact natDigitsAux_bounds (rowNum + 1) rowNum d this
    have hdup : isUpChar d = false := by
      simp only [isUpChar, Bool.and_eq_false_iff, decide_eq_false_iff_not]
      omega
    have hddig : isDigitChar d = true := by
      simp only [isDigitChar, Bool.and_eq_true, decide_eq_true_eq]
      omega
    unfold colRowMatch
    have htw : ('A' :: d :: ds).takeWhile isUpChar = ['A'] := by
      rw [List.takeWhile_cons_of_pos (by decide), List.takeWhile_cons_of_neg (by simp [hdup])]
    simp only [htw]
    rw [if_neg (by simp)]
    simp [hddig]

lemma summarizeCells_no_text (rowNum : Nat) (lastLoc : Option Txt) (cs : List SCell)
    (hlast : ∀ s, lastLoc = some s → (colRowMatch s).isSome = true)
    (hrefs : ∀ c ∈ cs, ∀ s, c.ref = some s → (colRowMatch s).isSome = true)
    (htext : ∀ c ∈ cs, c.text = none) :
    summarizeCells rowNum lastLoc cs = some ([], []) := by
  induction cs generalizing lastLoc with
  | nil => rfl
  | cons c cs ih
 =>
    have htc : c.text = none := htext c (List.mem_cons_self c cs)
    have hrefs' : ∀ x ∈ cs, ∀ s, x.ref = some s → (colRowMatch s).isSome = true :=
      fun x hx => hrefs x (List.mem_cons_of_mem c hx)
    have htext' : ∀ x ∈ cs, x.text = none := fun x hx => htext x (List.mem_cons_of_mem c hx)
    cases hcr : c.ref with
    | some loc =>
      have hwf := hrefs c (List.mem_cons_self c cs) loc hcr
      have hrec := ih (some loc) (fun s hs => by
        injection hs with hs
        rw [← hs]
        exact hwf) hrefs' htext'
      simp [summarizeCells, cellLocation, hcr, hrec, htc]
    | none =>
      cases hll : lastLoc with
      | some prev =>
        have hwf := hlast prev hll
        obtain ⟨letters, hlet⟩ := Option.isSome_iff_exists.mp hwf
        have hrec := ih (some prev) (fun s hs => by
          injection hs with hs
          rw [← hs]
          exact hwf) hrefs' htext'
        simp [summarizeCells, cellLocation, hcr, hlet, hrec, htc]
      | none =>
        have hrec := ih (some ('A' :: natDigits rowNum)) (fun s hs => by
          injection hs with hs
          rw [← hs]
          exact colRowMatch_default rowNum) hrefs' htext'
        simp [summarizeCells, cellLocation, hcr, hrec, htc]

lemma summarizeRows_no_text (rowNum : Nat) (rows : List SRow)
    (hrefs : ∀ r ∈ rows, ∀ c ∈ r.cells, ∀ s, c.ref = some s → (colRowMatch s).isSome = true)
    (htext : ∀ r ∈ rows, ∀ c ∈ r.cells, c.text = none) :
    summarizeRows rowNum rows = some ([], []) := by
  induction rows generalizing rowNum with
  | nil => rfl
  | cons r rs ih =>
    have hcells := summarizeCells_no_text
      (match r.rAttr with | some n => n | none => rowNum + 1) none r.cells
      (fun s hs => by cases hs)
      (hrefs r (List.mem_cons_self r rs)) (htext r (List.mem_cons_self r rs))
    have hrec := ih (match r.rAttr with | some n => n | none => rowNum + 1)
      (fun x hx => hrefs x (List.mem_cons_of_mem r hx))
      (fun x hx => htext x (List.mem_cons_of_mem r hx))
    simp [summarizeRows, hcells, hrec]

/-- C10: for every sheet, the Sheet Summarizer produces two parallel ordered
sequences of equal length — the line and the coordinate of each cell that
carries a text value, in document order, so that the i-th coordinate belongs
to the cell that produced the i-th line (the two sequences are the unzip of
the spec's single `(coordinate, text)` sequence); an empty sheet, and a sheet
with zero text cells (with well-formed cell references), yield two empty
sequences rather than an error. -/
theorem c10_theorem :
    (∀ (rows : List SRow) (ts ls : List Txt),
        summarize_sheet_files rows = some (ts, ls) → ts.length = ls.length) ∧
    (∀ rows : List SRow,
        summarize_sheet_files rows
          = (summaryPairsSpec rows).map (fun ps => (ps.map Prod.snd, ps.map Prod.fst))) ∧
    summarize_sheet_files [] = some ([], []) ∧
    (∀ rows : List SRow,
        (∀ r ∈ rows, ∀ c ∈ r.cells, ∀ s, c.ref = some s → (colRowMatch s).isSome = true) →
        (∀ r ∈ rows, ∀ c ∈ r.cells, c.text = none) →
        summarize_sheet_files rows = some ([], [])) := by
  refine ⟨?_, ?_, rfl, ?_⟩
  · intro rows ts ls h
    rw [show summarize_sheet_files rows = summarizeRows 0 rows from rfl, rows_pairs] at h
    cases hps : pairsRows 0 rows with
    | none => rw [hps] at h; cases h
    | some ps =>
      rw [hps] at h
      simp only [Option.map_some', Option.some.injEq, Prod.mk.injEq] at h
      rw [← h.1, ← h.2]
      simp
  · intro rows
    exact rows_pairs 0 rows
  · intro rows hrefs htext
    exact summarizeRows_no_text 0 rows hrefs htext

/-- Witness for `c10_theorem`: a one-cell sheet (equal lengths) and a sheet
whose only cell has no text (empty summary). -/
theorem c10_witness :
    (summarize_sheet_files [⟨some 1, [⟨some ['A', '1'], some ['x']⟩]⟩]
        = some ([['x', '\n']], [['A', '1']]) →
      ([['x', '\n']] : List Txt).length = ([['A', '1']] : List Txt).length) ∧
    summarize_sheet_files [⟨some 2, [⟨some ['A', '1'], none⟩]⟩] = some ([], []) :=
  ⟨c10_theorem.1 [⟨some 1, [⟨some ['A', '1'], some ['x']⟩]⟩] [['x', '\n']] [['A', '1']],
    c10_theorem.2.2.2 [⟨some 2, [⟨some ['A', '1'], none⟩]⟩]
      (by
        intro r hr c hc s hs
        rcases List.mem_cons.mp hr with rfl | hr2
        · rcases List.mem_cons.mp hc with rfl | hc2
          · cases hs
            decide
          · cases hc2
        · cases hr2)
      (by
        intro r hr c hc
        rcases List.mem_cons.mp hr with rfl | hr2
        · rcases List.mem_cons.mp hc with rfl | hc2
          · rfl
          · cases hc2
        · cases hr2)⟩

lemma classifyOld_renamed (sim : List Txt → List Txt → ℚ) (namesTo : List String)
    (summFrom summTo : String → List Txt) (l : List String) :
    (classifyOld sim namesTo summFrom summTo l).2
      = l.filterMap (fun nf =>
          if nf ∈ namesTo then none
          else (findRenameTarget sim (summFrom nf) nf namesTo summTo).map
            (fun nt => (nf, nt))) := by
  induction l with
  | nil => rfl
  | cons nf rest ih =>
    simp only [classifyOld, List.filterMap_cons]
    by_cases hmem : nf ∈ namesTo
    · simp [hmem, ih]
    · cases hf : findRenameTarget sim (summFrom nf) nf namesTo summTo with
      | none => simp [hmem, hf, ih]
      | some nt => simp [hmem, hf, ih]

lemma classifyOld_removed (sim : List Txt → List Txt → ℚ) (namesTo : List String)
    (summFrom summTo : String → List Txt) (l : List String) :
    (classifyOld sim namesTo summFrom summTo l).1
      = l.filter (fun nf =>
          decide (nf ∉ namesTo) &&
            (findRenameTarget sim (summFrom nf) nf namesTo summTo).isNone) := by
  induction l with
  | nil => rfl
  | cons nf rest ih =>
    simp only [classifyOld, List.filter_cons]
    by_cases hmem : nf ∈ namesTo
    · simp [hmem, ih]
    · cases hf : findRenameTarget sim (summFrom nf) nf namesTo summTo with
      | none => simp [hmem, hf, ih]
      | some nt => simp [hmem, hf, ih]

/-- C2 counterexample: old sheets {A, B}, new sheets {B}, all contents
identical (so the similarity of identical line sequences is 1 > 0.5, as for
`SequenceMatcher.ratio`).  There is no new-ONLY sheet, so the claim predicts
A is classified removed; the code instead accepts the retained sheet B —
which is present in the old set — as A's rename target. -/
theorem c2_counterexample :
    compare_sheet_names (fun _ _ => (1 : ℚ)) ["A", "B"] ["B"]
        (fun _ => [['x']]) (fun _ => [['x']])
      = ([], [], [("A", "B")]) ∧ ("B" : String) ∈ ["A", "B"] := by
  have hlt : ((2 : ℚ))⁻¹ < 1 := by norm_num
  constructor
  · simp [compare_sheet_names, classifyOld, findRenameTarget, List.find?, hlt]
  · simp

/-- C2 (amended): for every old sheet name absent from the new name set, the
first NEW sheet (any name in the new list different from the old name,
whether or not it also occurs in the old set) whose similarity ratio strictly
exceeds 0.5 is accepted as its rename target, and absent such a candidate the
old sheet is removed; every new name neither in the old set nor claimed as a
rename target is added; and identical sheet-name sets classify nothing. -/
theorem c2_theorem (sim : List Txt → List Txt → ℚ) (namesFrom namesTo : List String)
    (summFrom summTo : String → List Txt) :
    ((compare_sheet_names sim namesFrom namesTo summFrom summTo).2.2
        = namesFrom.filterMap (fun nf =>
            if nf ∈ namesTo then none
            else (findRenameTarget sim (summFrom nf) nf namesTo summTo).map
              (fun nt => (nf, nt))) ∧
      (compare_sheet_names sim namesFrom namesTo summFrom summTo).2.1
        = namesFrom.filter (fun nf =>
            decide (nf ∉ namesTo) &&
              (findRenameTarget sim (summFrom nf) nf namesTo summTo).isNone) ∧
      (compare_sheet_names sim namesFrom namesTo summFrom summTo).1
        = namesTo.filter (fun nt =>
            decide (nt ∉ namesFrom) &&
              decide (nt ∉
                ((compare_sheet_names sim namesFrom namesTo summFrom summTo).2.2).map
                  Prod.snd))) ∧
    ((∀ x : String, x ∈ namesFrom ↔ x ∈ namesTo) →
      compare_sheet_names sim namesFrom namesTo summFrom summTo = ([], [], [])) := by
  constructor
  · refine ⟨classifyOld_renamed sim namesTo summFrom summTo namesFrom,
      classifyOld_removed sim namesTo summFrom summTo namesFrom, rfl⟩
  · intro hset
    have hren : (classifyOld sim namesTo summFrom summTo namesFrom).2 = [] := by
      rw [classifyOld_renamed]
      rw [List.filterMap_eq_nil_iff]
      intro nf hnf
      rw [if_pos ((hset nf).mp hnf)]
    have hrem : (classifyOld sim namesTo summFrom summTo namesFrom).1 = [] := by
      rw [classifyOld_removed]
      rw [List.filter_eq_nil_iff]
      intro nf hnf
      simp [(hset nf).mp hnf]
    have hadd : List.filter (fun nt =>
        decide (nt ∉ namesFrom) &&
          decide (nt ∉
            ((classifyOld sim namesTo summFrom summTo namesFrom).2).map Prod.snd))
        namesTo = [] := by
      rw [List.filter_eq_nil_iff]
      intro nt hnt
      simp [(hset nt).mpr hnt]
    show (List.filter _ namesTo, (classifyOld sim namesTo summFrom summTo namesFrom).1,
      (classifyOld sim namesTo summFrom summTo namesFrom).2) = ([], [], [])
    rw [hadd, hrem, hren]

/-- Witness for `c2_theorem`: identical one-sheet name sets classify
nothing. -/
theorem c2_witness :
    compare_sheet_names (fun _ _ => (1 : ℚ)) ["A"] ["A"]
        (fun _ => []) (fun _ => []) = ([], [], []) :=
  (c2_theorem (fun _ _ => (1 : ℚ)) ["A"] ["A"] (fun _ => []) (fun _ => [])).2
    (fun _ => Iff.rfl)

lemma filterMap_fst_sublist (l : List String) (f : String → Option (String × String))
    (hf : ∀ nf p, f nf = some p → p.1 = nf) :
    ((l.filterMap f).map Prod.fst).Sublist l := by
  induction l with
  | nil => simp
  | cons a l ih =>
    cases hfa : f a with
    | none =>
      simp only [List.filterMap_cons, hfa]
      exact ih.cons a
    | some p =>
      simp only [List.filterMap_cons, hfa, List.map_cons]
      rw [hf a p hfa]
      exact ih.cons₂ a

/-- C6 counterexample: old sheets {A, B}, new sheet {C}, all contents
similar: both A and B are renamed to C, so the new sheet C is the rename
target of two old sheets. -/
theorem c6_counterexample :
    (compare_sheet_names (fun _ _ => (1 : ℚ)) ["A", "B"] ["C"]
        (fun _ => [['x']]) (fun _ => [['x']])).2.2.map Prod.snd = ["C", "C"] ∧
    ¬ (["C", "C"] : List String).Nodup := by
  have hlt : ((2 : ℚ))⁻¹ < 1 := by norm_num
  constructor
  · simp [compare_sheet_names, classifyOld, findRenameTarget, List.find?, hlt]
  · decide

/-- C6 (amended): in the classification, each OLD sheet name is the source of
at most one renamed pair (the first components of the renamed list are
distinct whenever the old name list is); a NEW sheet name, however, can be
the rename target of several old sheets, since matched targets are not
removed from the candidate pool. -/
theorem c6_theorem (sim : List Txt → List Txt → ℚ) (namesFrom namesTo : List String)
    (summFrom summTo : String → List Txt) (h : namesFrom.Nodup) :
    (((compare_sheet_names sim namesFrom namesTo summFrom summTo).2.2).map
      Prod.fst).Nodup := by
  have hchar := classifyOld_renamed sim namesTo summFrom summTo namesFrom
  show (((classifyOld sim namesTo summFrom summTo namesFrom).2).map Prod.fst).Nodup
  rw [hchar]
  refine (filterMap_fst_sublist namesFrom _ ?_).nodup h
  intro nf p hp
  by_cases hmem : nf ∈ namesTo
  · rw [if_pos hmem] at hp
    cases hp
  · rw [if_neg hmem] at hp
    cases hft : findRenameTarget sim (summFrom nf) nf namesTo summTo with
    | none => rw [hft] at hp; cases hp
    | some nt =>
      rw [hft] at hp
      simp only [Option.map_some', Option.some.injEq] at hp
      rw [← hp]

/-- Witness for `c6_theorem` on the counterexample scenario: the SOURCES of
the two renamed pairs are still distinct. -/
theorem c6_witness :
    (((compare_sheet_names (fun _ _ => (1 : ℚ)) ["A", "B"] ["C"]
        (fun _ => [['x']]) (fun _ => [['x']])).2.2).map Prod.fst).Nodup :=
  c6_theorem (fun _ _ => (1 : ℚ)) ["A", "B"] ["C"]
    (fun _ => [['x']]) (fun _ => [['x']]) (by decide)

lemma mem_le_foldr_max (a : Nat) (l : List Nat) (h : a ∈ l) : a ≤ l.foldr max 0 := by
  induction l with
  | nil => cases h
  | cons b l ih =>
    rcases List.mem_cons.mp h with rfl | h'
    · exact le_max_left _ _
    · exact le_trans (ih h') (le_max_right _ _)

lemma freshName_not_mem (fs : List Nat) : freshName fs ∉ fs := by
  intro h
  have hle := mem_le_foldr_max (freshName fs) fs h
  unfold freshName at hle
  omega

lemma erase_fresh (l : List Nat) : (l ++ [freshName l]).erase (freshName l) = l := by
  rw [List.erase_append_right _ (freshName_not_mem l)]
  simp

/-- C4 counterexample: when the engine exits with status 2, `diff_files`
returns with BOTH temporary files still present (created as files 1 and 2 on
an initially empty store, and never removed on the error path). -/
theorem c4_counterexample :
    (diff_files [] [] ⟨2, [], []⟩ [] [] []).2.2 = [1, 2] ∧ ([1, 2] : List Nat) ≠ [] := by
  exact ⟨by decide, by decide⟩

/-- C4 (amended): the two temporary files created by `diff_files` are removed
before it returns on the success paths (engine status 0 or 1), restoring the
file store; on the engine-error path (status outside {0, 1}) the early
return skips `os.remove` and both files are left behind. -/
theorem c4_theorem (linesFrom linesTo : List Txt) (r : EngineResult)
    (fileFromName fileToName : Txt) (fs : List Nat)
    (h : r.returncode = 0 ∨ r.returncode = 1) :
    (diff_files linesFrom linesTo r fileFromName fileToName fs).2.2 = fs := by
  unfold diff_files
  rw [if_neg (by rcases h with h | h <;> simp [h])]
  show (((fs ++ [freshName fs]) ++ [freshName (fs ++ [freshName fs])]).erase
      (freshName (fs ++ [freshName fs]))).erase (freshName fs) = fs
  rw [erase_fresh (fs ++ [freshName fs]), erase_fresh fs]

/-- Witness for `c4_theorem`: a successful run (status 0) leaves the initial
file store unchanged. -/
theorem c4_witness :
    ((⟨0, [], []⟩ : EngineResult).returncode = 0 ∨
      (⟨0, [], []⟩ : EngineResult).returncode = 1) ∧
    (diff_files [] [] ⟨0, [], []⟩ [] [] [5]).2.2 = [5] :=
  ⟨Or.inl rfl, c4_theorem [] [] ⟨0, [], []⟩ [] [] [5] (Or.inl rfl)⟩

lemma compare_one_engine_fail (engine : String → EngineResult)
    (summFrom summTo : String → List Txt × List Txt) (fileFrom fileTo : Txt)
    (removed : List String) (renamed : List (String × String)) (n : String)
    (hfail : (engine n).returncode ≠ 0 ∧ (engine n).returncode ≠ 1)
    (hnr : n ∉ removed) :
    compare_one engine summFrom summTo fileFrom fileTo removed renamed n
      = some ([], [errMsg (engine n).stderr]) := by
  unfold compare_one
  rw [if_neg hnr]
  have hdf : ∀ (lf lt : List Txt) (fn tn : Txt),
      diff_files lf lt (engine n) fn tn []
        = ([], some (errMsg (engine n).stderr), [1, 2]) := by
    intro lf lt fn tn
    unfold diff_files
    rw [if_pos hfail]
    rfl
  simp only [hdf]
  rfl

/-- C9: an engine exit status outside {0, 1} makes `diff_files` report the
engine's error output and return the empty diff; statuses 0 and 1 both
produce no error report; and in the orchestrator's loop a failing sheet pair
contributes an empty diff plus its error report while the remaining sheet
pairs are still processed exactly as without it. -/
theorem c9_theorem :
    (∀ (linesFrom linesTo : List Txt) (r : EngineResult) (fn tn : Txt) (fs : List Nat),
        r.returncode ≠ 0 ∧ r.returncode ≠ 1 →
        (diff_files linesFrom linesTo r fn tn fs).1 = [] ∧
        (diff_files linesFrom linesTo r fn tn fs).2.1 = some (errMsg r.stderr)) ∧
    (∀ (linesFrom linesTo : List Txt) (r : EngineResult) (fn tn : Txt) (fs : List Nat),
        r.returncode = 0 ∨ r.returncode = 1 →
        (diff_files linesFrom linesTo r fn tn fs).2.1 = none) ∧
    (∀ (engine : String → EngineResult) (summFrom summTo : String → List Txt × List Txt)
        (fileFrom fileTo : Txt) (removed : List String)
        (renamed : List (String × String)) (n : String) (ns : List String),
        (engine n).returncode ≠ 0 ∧ (engine n).returncode ≠ 1 →
        n ∉ removed →
        compare_dirs engine summFrom summTo fileFrom fileTo removed renamed (n :: ns)
          = (compare_dirs engine summFrom summTo fileFrom fileTo removed renamed ns).map
              (fun p => (p.1, errMsg (engine n).stderr :: p.2))) := by
  refine ⟨?_, ?_, ?_⟩
  · intro lf lt r fn tn fs h
    unfold diff_files
    rw [if_pos h]
    exact ⟨rfl, rfl⟩
  · intro lf lt r fn tn fs h
    unfold diff_files
    rw [if_neg (by rcases h with h | h <;> simp [h])]
  · intro engine summFrom summTo fileFrom fileTo removed renamed n ns hfail hnr
    have h1 := compare_one_engine_fail engine summFrom summTo fileFrom fileTo
      removed renamed n hfail hnr
    cases hrec : compare_dirs engine summFrom summTo fileFrom fileTo removed renamed ns with
    | none => simp [compare_dirs, h1, hrec]
    | some p =>
      obtain ⟨ds, rs⟩ := p
      simp [compare_dirs, h1, hrec]

/-- Witness for `c9_theorem`: one sheet whose engine run exits with status 2;
its contribution is the error report and an empty diff. -/
theorem c9_witness :
    (((fun _ : String => (⟨2, [], ['e']⟩ : EngineResult)) "S").returncode ≠ 0 ∧
      ((fun _ : String => (⟨2, [], ['e']⟩ : EngineResult)) "S").returncode ≠ 1) ∧
    ("S" ∉ ([] : List String)) ∧
    compare_dirs (fun _ => ⟨2, [], ['e']⟩) (fun _ => ([], [])) (fun _ => ([], []))
        [] [] [] [] ("S" :: ["T"])
      = (compare_dirs (fun _ => ⟨2, [], ['e']⟩) (fun _ => ([], [])) (fun _ => ([], []))
          [] [] [] [] ["T"]).map
          (fun p => (p.1, errMsg ((fun _ : String => (⟨2, [], ['e']⟩ : EngineResult)) "S").stderr :: p.2)) :=
  ⟨⟨by decide, by decide⟩, by simp,
    c9_theorem.2.2 (fun _ => ⟨2, [], ['e']⟩) (fun _ => ([], [])) (fun _ => ([], []))
      [] [] [] [] "S" ["T"] ⟨by decide, by decide⟩ (by simp)⟩

lemma oldCnt_cons_succ (l : Txt) (b : List Txt) (m : Nat) :
    oldCnt (l :: b) (m + 1) = (if takesOld l then 1 else 0) + oldCnt b m := by
  unfold oldCnt
  rw [List.take_succ_cons, List.filter_cons]
  by_cases h : takesOld l
  · simp [h, Nat.add_comm]
  · simp [h]

lemma newCnt_cons_succ (l : Txt) (b : List Txt) (m : Nat) :
    newCnt (l :: b) (m + 1) = (if takesNew l then 1 else 0) + newCnt b m := by
  unfold newCnt
  rw [List.take_succ_cons, List.filter_cons]
  by_cases h : takesNew l
  · simp [h, Nat.add_comm]
  · simp [h]

lemma takesOld_of_minus (l : Txt) (h : l.head? = some '-') : takesOld l = true := by
  unfold takesOld
  rw [h]
  decide

lemma takesNew_of_minus (l : Txt) (h : l.head? = some '-') : takesNew l = false := by
  unfold takesNew
  rw [h]
  decide

lemma takesOld_of_plus (l : Txt) (h : l.head? = some '+') : takesOld l = false := by
  unfold takesOld
  rw [h]
  decide

lemma takesNew_of_plus (l : Txt) (h : l.head? = some '+') : takesNew l = true := by
  unfold takesNew
  rw [h]
  decide

lemma takesOld_of_other (l : Txt) (hp : ¬ l.head? = some '+') : takesOld l = true :=
  bne_iff_ne.mpr hp

lemma takesNew_of_other (l : Txt) (hm : ¬ l.head? = some '-') : takesNew l = true :=
  bne_iff_ne.mpr hm

lemma walkHunk_spec_cons (locsF locsT : List Txt) (fc tc : Nat) (line : Txt)
    (rest : List Txt) (i j i' j' : Nat) (ann : Txt) (out' rem' : List Txt)
    (hcond : i < fc ∨ j < tc)
    (hann : annFor locsF locsT i j line = some ann)
    (hi : i' = i + (if takesOld line then 1 else 0))
    (hj : j' = j + (if takesNew line then 1 else 0))
    (hex : ∃ k, k ≤ rest.length ∧ rem' = rest.drop k ∧ out'.length = 2 * k ∧
        fc ≤ i' + oldCnt rest k ∧ tc ≤ j' + newCnt rest k ∧
        ∀ m, m < k →
          (i' + oldCnt rest m < fc ∨ j' + newCnt rest m < tc) ∧
          ∃ ln, rest[m]? = some ln ∧
            out'[2 * m]? = annFor locsF locsT (i' + oldCnt rest m) (j' + newCnt rest m) ln ∧
            out'[2 * m + 1]? = some ln) :
    ∃ k, k ≤ (line :: rest).length ∧ rem' = (line :: rest).drop k ∧
      (ann :: line :: out').length = 2 * k ∧
      fc ≤ i + oldCnt (line :: rest) k ∧ tc ≤ j + newCnt (line :: rest) k ∧
      ∀ m, m < k →
        (i + oldCnt (line :: rest) m < fc ∨ j + newCnt (line :: rest) m < tc) ∧
        ∃ ln, (line :: rest)[m]? = some ln ∧
          (ann :: line :: out')[2 * m]?
            = annFor locsF locsT (i + oldCnt (line :: rest) m)
                (j + newCnt (line :: rest) m) ln ∧
          (ann :: line :: out')[2 * m + 1]? = some ln := by
  obtain ⟨k, hk1, hk2, hk3, hk4, hk5, hk6⟩ := hex
  rw [hi] at hk4
  rw [hj] at hk5
  refine ⟨k + 1, by simpa using Nat.succ_le_succ hk1, by simpa using hk2,
    by simp only [List.length_cons, hk3]; ring, ?_, ?_, ?_⟩
  · rw [oldCnt_cons_succ]
    omega
  · rw [newCnt_cons_succ]
    omega
  · intro m hm
    cases m with
    | zero =>
      refine ⟨by simpa [oldCnt, newCnt] using hcond, line, by simp, ?_, by simp⟩
      show some ann = annFor locsF locsT (i + oldCnt (line :: rest) 0)
        (j + newCnt (line :: rest) 0) line
      rw [show oldCnt (line :: rest) 0 = 0 from rfl,
        show newCnt (line :: rest) 0 = 0 from rfl]
      simpa using hann.symm
    | succ m' =>
      have hm' : m' < k := by omega
      obtain ⟨hc, ln, hln, ha, hb⟩ := hk6 m' hm'
      rw [hi] at hc ha
      rw [hj] at hc ha
      refine ⟨?_, ln, by simpa using hln, ?_, ?_⟩
      · rw [oldCnt_cons_succ, newCnt_cons_succ]
        rcases hc with hc | hc
        · left
          omega
        · right
          omega
      · have e2 : 2 * (m' + 1) = 2 * m' + 1 + 1 := by ring
        rw [e2, List.getElem?_cons_succ, List.getElem?_cons_succ, ha,
          oldCnt_cons_succ, newCnt_cons_succ]
        have e3 : i + (if takesOld line then 1 else 0) + oldCnt rest m'
            = i + ((if takesOld line then 1 else 0) + oldCnt rest m') := by omega
        have e4 : j + (if takesNew line then 1 else 0) + newCnt rest m'
            = j + ((if takesNew line then 1 else 0) + newCnt rest m') := by omega
        rw [e3, e4]
      · have e2 : 2 * (m' + 1) + 1 = 2 * m' + 1 + 1 + 1 := by ring
        rw [e2, List.getElem?_cons_succ, List.getElem?_cons_succ]
        exact hb

lemma walkHunk_spec (locsF locsT : List Txt) (fc tc : Nat) :
    ∀ (body : List Txt) (i j : Nat) (out rem : List Txt),
      walkHunk locsF locsT fc tc i j body = some (out, rem) →
      ∃ k, k ≤ body.length ∧ rem = body.drop k ∧ out.length = 2 * k ∧
        fc ≤ i + oldCnt body k ∧ tc ≤ j + newCnt body k ∧
        ∀ m, m < k →
          (i + oldCnt body m < fc ∨ j + newCnt body m < tc) ∧
          ∃ ln, body[m]? = some ln ∧
            out[2 * m]? = annFor locsF locsT (i + oldCnt body m) (j + newCnt body m) ln ∧
            out[2 * m + 1]? = some ln := by
  intro body
  induction body with
  | nil =>
    intro i j out rem h
    simp only [walkHunk] at h
    split at h
    · cases h
    · rename_i hcond
      push_neg at hcond
      simp only [Option.some.injEq, Prod.mk.injEq] at h
      obtain ⟨hout, hrem⟩ := h
      subst hout
      subst hrem
      exact ⟨0, Nat.zero_le _, rfl, rfl, by simpa [oldCnt] using hcond.1,
        by simpa [newCnt] using hcond.2, fun m hm => absurd hm (Nat.not_lt_zero m)⟩
  | cons line rest ih =>
    intro i j out rem h
    simp only [walkHunk] at h
    by_cases hcond : i < fc ∨ j < tc
    · rw [if_pos hcond] at h
      by_cases hminus : line.head? = some '-'
      · rw [if_pos hminus] at h
        cases hla : locsF[i]? with
        | none =>
          simp only [hla] at h
          exact Option.noConfusion h
        | some a =>
          simp only [hla] at h
          cases hrec : walkHunk locsF locsT fc tc (i + 1) j rest with
          | none =>
            simp only [hrec] at h
            exact Option.noConfusion h
          | some p =>
            obtain ⟨out', rem'⟩ := p
            simp only [hrec, Option.some.injEq, Prod.mk.injEq] at h
            obtain ⟨hout, hrem⟩ := h
            subst hout
            subst hrem
            exact walkHunk_spec_cons locsF locsT fc tc line rest i j (i + 1) j _ out' rem'
              hcond (by simp [annFor, hminus, hla])
              (by simp [takesOld_of_minus line hminus])
              (by simp [takesNew_of_minus line hminus])
              (ih (i + 1) j out' rem' hrec)
      · rw [if_neg hminus] at h
        by_cases hplus : line.head? = some '+'
        · rw [if_pos hplus] at h
          cases hlb : locsT[j]? with
          | none =>
            simp only [hlb] at h
            exact Option.noConfusion h
          | some b =>
            simp only [hlb] at h
            cases hrec : walkHunk locsF locsT fc tc i (j + 1) rest with
            | none =>
              simp only [hrec] at h
              exact Option.noConfusion h
            | some p =>
              obtain ⟨out', rem'⟩ := p
              simp only [hrec, Option.some.injEq, Prod.mk.injEq] at h
              obtain ⟨hout, hrem⟩ := h
              subst hout
              subst hrem
              exact walkHunk_spec_cons locsF locsT fc tc line rest i j i (j + 1) _ out' rem'
                hcond (by simp [annFor, hminus, hplus, hlb])
                (by simp [takesOld_of_plus line hplus])
                (by simp [takesNew_of_plus line hplus])
                (ih i (j + 1) out' rem' hrec)
        · rw [if_neg hplus] at h
          cases hla : locsF[i]? with
          | none =>
            simp only [hla] at h
            exact Option.noConfusion h
          | some a =>
            cases hlb : locsT[j]? with
            | none =>
              simp only [hla, hlb] at h
              exact Option.noConfusion h
            | some b =>
              simp only [hla, hlb] at h
              cases hrec : walkHunk locsF locsT fc tc (i + 1) (j + 1) rest with
              | none =>
                simp only [hrec] at h
                exact Option.noConfusion h
              | some p =>
                obtain ⟨out', rem'⟩ := p
                simp only [hrec, Option.some.injEq, Prod.mk.injEq] at h
                obtain ⟨hout, hrem⟩ := h
                subst hout
                subst hrem
                exact walkHunk_spec_cons locsF locsT fc tc line rest i j (i + 1) (j + 1)
                  _ out' rem' hcond (by simp [annFor, hminus, hplus, hla, hlb])
                  (by simp [takesOld_of_other line hplus])
                  (by simp [takesNew_of_other line hminus])
                  (ih (i + 1) (j + 1) out' rem' hrec)
    · rw [if_neg hcond] at h
      push_neg at hcond
      simp only [Option.some.injEq, Prod.mk.injEq] at h
      obtain ⟨hout, hrem⟩ := h
      subst hout
      subst hrem
      exact ⟨0, Nat.zero_le _, rfl, rfl, by simpa [oldCnt] using hcond.1,
        by simpa [newCnt] using hcond.2, fun m hm => absurd hm (Nat.not_lt_zero m)⟩

lemma annLines_open (locsF locsT sF sT : List Txt) (fc tc : Nat) :
    ∀ (body : List Txt) (i j : Nat),
      annLines locsF locsT (some ⟨sF, sT, fc, tc, i, j⟩) body
        = (walkHunk sF sT fc tc i j body).bind
            (fun p => (annLines locsF locsT none p.2).map (fun z => p.1 ++ z)) := by
  intro body
  induction body with
  | nil =>
    intro i j
    by_cases hcond : i < fc ∨ j < tc
    · simp [annLines, walkHunk, hcond]
    · simp [annLines, walkHunk, hcond]
  | cons line rest ih =>
    intro i j
    by_cases hcond : i < fc ∨ j < tc
    · have hl : annLines locsF locsT (some ⟨sF, sT, fc, tc, i, j⟩) (line :: rest)
          = match annFor sF sT i j line with
            | none => none
            | some ann =>
              (annLines locsF locsT
                (some (advanceHunk ⟨sF, sT, fc, tc, i, j⟩ line)) rest).map
                (fun out => ann :: line :: out) := by
        simp only [annLines]
        rw [if_pos hcond]
      rw [hl]
      by_cases hminus : line.head? = some '-'
      · have hadv : advanceHunk ⟨sF, sT, fc, tc, i, j⟩ line
            = ⟨sF, sT, fc, tc, i + 1, j⟩ := by
          simp [advanceHunk, hminus]
        rw [hadv]
        cases hla : sF[i]? with
        | none => simp [walkHunk, hcond, hminus, hla, annFor]
        | some a =>
          rw [ih (i + 1) j]
          cases hrec : walkHunk sF sT fc tc (i + 1) j rest with
          | none => simp [walkHunk, hcond, hminus, hla, annFor, hrec]
          | some p =>
            obtain ⟨out, rem⟩ := p
            cases hann : annLines locsF locsT none rem with
            | none => simp [walkHunk, hcond, hminus, hla, annFor, hrec, hann]
            | some z => simp [walkHunk, hcond, hminus, hla, annFor, hrec, hann]
      · by_cases hplus : line.head? = some '+'
        · have hadv : advanceHunk ⟨sF, sT, fc, tc, i, j⟩ line
              = ⟨sF, sT, fc, tc, i, j + 1⟩ := by
            simp [advanceHunk, hminus, hplus]
          rw [hadv]
          cases hlb : sT[j]? with
          | none => simp [walkHunk, hcond, hminus, hplus, hlb, annFor]
          | some b =>
            rw [ih i (j + 1)]
            cases hrec : walkHunk sF sT fc tc i (j + 1) rest with
            | none => simp [walkHunk, hcond, hminus, hplus, hlb, annFor, hrec]
            | some p =>
              obtain ⟨out, rem⟩ := p
              cases hann : annLines locsF locsT none rem with
              | none => simp [walkHunk, hcond, hminus, hplus, hlb, annFor, hrec, hann]
              | some z => simp [walkHunk, hcond, hminus, hplus, hlb, annFor, hrec, hann]
        · have hadv : advanceHunk ⟨sF, sT, fc, tc, i, j⟩ line
              = ⟨sF, sT, fc, tc, i + 1, j + 1⟩ := by
            simp [advanceHunk, hminus, hplus]
          rw [hadv]
          cases hla : sF[i]? with
          | none => simp [walkHunk, hcond, hminus, hplus, hla, annFor]
          | some a =>
            cases hlb : sT[j]? with
            | none => simp [walkHunk, hcond, hminus, hplus, hla, hlb, annFor]
            | some b =>
              rw [ih (i + 1) (j + 1)]
              cases hrec : walkHunk sF sT fc tc (i + 1) (j + 1) rest with
              | none => simp [walkHunk, hcond, hminus, hplus, hla, hlb, annFor, hrec]
              | some p =>
                obtain ⟨out, rem⟩ := p
                cases hann : annLines locsF locsT none rem with
                | none =>
                  simp [walkHunk, hcond, hminus, hplus, hla, hlb, annFor, hrec, hann]
                | some z =>
                  simp [walkHunk, hcond, hminus, hplus, hla, hlb, annFor, hrec, hann]
    · have hr : walkHunk sF sT fc tc i j (line :: rest) = some ([], line :: rest) := by
        simp only [walkHunk]
        rw [if_neg hcond]
      rw [hr]
      have hmap : ∀ (o : Option (List Txt)), o.map (fun z => ([] : List Txt) ++ z) = o := by
        intro o
        cases o <;> simp
      rw [show (some (([] : List Txt), line :: rest)).bind
          (fun p => (annLines locsF locsT none p.2).map (fun z => p.1 ++ z))
          = (annLines locsF locsT none (line :: rest)).map
              (fun z => ([] : List Txt) ++ z) from rfl, hmap]
      simp only [annLines]
      rw [if_neg hcond]

/-- Every hunk header encountered by the annotation pass of `compare_dirs`
triggers exactly the per-hunk slicing-and-walk `processHunk` on the lines
that follow it. -/
lemma annotate_diff_header (locsF locsT : List Txt) (line : Txt) (rest : List Txt)
    (fs fc ts tc : Nat) (hhdr : parseHunkHeader line = some (fs, fc, ts, tc)) :
    annotate_diff locsF locsT (line :: rest)
      = (processHunk locsF locsT fs fc ts tc rest).bind
          (fun p => (annLines locsF locsT none p.2).map (fun z => line :: (p.1 ++ z))) := by
  unfold annotate_diff
  simp only [annLines, hhdr]
  rw [show mkHunkState locsF locsT fs fc ts tc
    = ⟨(locsF.drop (fs - 1)).take fc, (locsT.drop (ts - 1)).take tc, fc, tc, 0, 0⟩
    from rfl]
  rw [annLines_open]
  unfold processHunk
  cases hw : walkHunk ((locsF.drop (fs - 1)).take fc) ((locsT.drop (ts - 1)).take tc)
      fc tc 0 0 rest with
  | none => rfl
  | some p =>
    obtain ⟨out, rem⟩ := p
    cases hann : annLines locsF locsT none rem <;> simp [hann]

/-- C3: for every hunk with header (from_start, from_count, to_start,
to_count), the coordinate lists are sliced at
`[from_start-1 : from_start-1+from_count]` and `[to_start-1 :
to_start-1+to_count]`, and the walk annotates the first k hunk body lines —
ending exactly when both cursors have reached their counts — inserting
exactly one synthetic annotation line immediately before each body line:
`(-old)` for a line starting with '-' (consuming the old cursor), `(+new)`
for '+' (consuming the new cursor), `(-old +new)` otherwise (consuming
both), with each coordinate read at the line's cursor position. -/
theorem c3_theorem (locsF locsT : List Txt) (fromStart fromCount toStart toCount : Nat)
    (body out rem : List Txt)
    (h : processHunk locsF locsT fromStart fromCount toStart toCount body
      = some (out, rem)) :
    processHunk locsF locsT fromStart fromCount toStart toCount body
      = walkHunk ((locsF.drop (fromStart - 1)).take fromCount)
          ((locsT.drop (toStart - 1)).take toCount) fromCount toCount 0 0 body ∧
    ∃ k, k ≤ body.length ∧ rem = body.drop k ∧ out.length = 2 * k ∧
      fromCount ≤ oldCnt body k ∧ toCount ≤ newCnt body k ∧
      ∀ m, m < k →
        (oldCnt body m < fromCount ∨ newCnt body m < toCount) ∧
        ∃ ln, body[m]? = some ln ∧
          out[2 * m]? = annFor ((locsF.drop (fromStart - 1)).take fromCount)
            ((locsT.drop (toStart - 1)).take toCount)
            (oldCnt body m) (newCnt body m) ln ∧
          out[2 * m + 1]? = some ln := by
  refine ⟨rfl, ?_⟩
  obtain ⟨k, h1, h2, h3, h4, h5, h6⟩ :=
    walkHunk_spec ((locsF.drop (fromStart - 1)).take fromCount)
      ((locsT.drop (toStart - 1)).take toCount) fromCount toCount body 0 0 out rem h
  refine ⟨k, h1, h2, h3, by simpa using h4, by simpa using h5, fun m hm => ?_⟩
  obtain ⟨hc, ln, hln, ha, hb⟩ := h6 m hm
  exact ⟨by simpa using hc, ln, hln, by simpa using ha, hb⟩

/-- Witness for `c3_theorem`: a one-line-each hunk `@@ -1 +1 @@` over
singleton coordinate lists; the removal line is annotated with `(-A1)` and
the addition line with `(+B2)`. -/
theorem c3_witness :
    processHunk [['A', '1']] [['B', '2']] 1 1 1 1 [['-', 'x', '\n'], ['+', 'y', '\n']]
      = some ([annMinus ['A', '1'], ['-', 'x', '\n'], annPlus ['B', '2'], ['+', 'y', '\n']],
          []) ∧
    (processHunk [['A', '1']] [['B', '2']] 1 1 1 1 [['-', 'x', '\n'], ['+', 'y', '\n']]
        = walkHunk (([['A', '1']].drop (1 - 1)).take 1) (([['B', '2']].drop (1 - 1)).take 1)
            1 1 0 0 [['-', 'x', '\n'], ['+', 'y', '\n']] ∧
      ∃ k, k ≤ ([['-', 'x', '\n'], ['+', 'y', '\n']] : List Txt).length ∧
        ([] : List Txt) = [['-', 'x', '\n'], ['+', 'y', '\n']].drop k ∧
        ([annMinus ['A', '1'], ['-', 'x', '\n'], annPlus ['B', '2'],
          ['+', 'y', '\n']] : List Txt).length = 2 * k ∧
        1 ≤ oldCnt [['-', 'x', '\n'], ['+', 'y', '\n']] k ∧
        1 ≤ newCnt [['-', 'x', '\n'], ['+', 'y', '\n']] k ∧
        ∀ m, m < k →
          (oldCnt [['-', 'x', '\n'], ['+', 'y', '\n']] m < 1 ∨
            newCnt [['-', 'x', '\n'], ['+', 'y', '\n']] m < 1) ∧
          ∃ ln, [['-', 'x', '\n'], ['+', 'y', '\n']][m]? = some ln ∧
            [annMinus ['A', '1'], ['-', 'x', '\n'], annPlus ['B', '2'],
              ['+', 'y', '\n']][2 * m]?
              = annFor (([['A', '1']].drop (1 - 1)).take 1)
                  (([['B', '2']].drop (1 - 1)).take 1)
                  (oldCnt [['-', 'x', '\n'], ['+', 'y', '\n']] m)
                  (newCnt [['-', 'x', '\n'], ['+', 'y', '\n']] m) ln ∧
            [annMinus ['A', '1'], ['-', 'x', '\n'], annPlus ['B', '2'],
              ['+', 'y', '\n']][2 * m + 1]? = some ln) := by
  have hrun : processHunk [['A', '1']] [['B', '2']] 1 1 1 1
      [['-', 'x', '\n'], ['+', 'y', '\n']]
      = some ([annMinus ['A', '1'], ['-', 'x', '\n'], annPlus ['B', '2'],
          ['+', 'y', '\n']], []) := by decide
  exact ⟨hrun, c3_theorem [['A', '1']] [['B', '2']] 1 1 1 1
    [['-', 'x', '\n'], ['+', 'y', '\n']]
    [annMinus ['A', '1'], ['-', 'x', '\n'], annPlus ['B', '2'], ['+', 'y', '\n']] [] hrun⟩

end XlsxDiff
